import Mathlib

/-!
Shallow embedding of the node-assignment group-messaging service
(Express + Mongoose) and proofs of the specification's claims.

Sources embedded:
- models/Message.js  (message schema, encryption helpers, pre-save hook)
- models/Group.js    (group schema, isMember / isBanned / hasPendingRequest)
- models/User.js     (user schema, canRejoinPrivateGroup)
- routes/messages.js (send / list / edit / delete / search handlers)
- routes/groups.js   (create / join / leave / transfer / banish /
                      approve / decline handlers)

Conventions: Mongo ObjectIds are modelled as naturals; `Date` values are
milliseconds since the epoch, as naturals (`Date.now()` arithmetic in the
source is numeric on millisecond values; fractional-minute and
fractional-hour comparisons are carried out exactly over `ℚ`, which agrees
with the source's IEEE-double arithmetic on these magnitudes).  Each route
handler becomes a pure function from the records it loads plus the
request parameters to an `Except`/result, with the fresh values the
runtime supplies (generated ids, `Date.now()`, random ivs) passed as
explicit arguments.
-/

namespace NodeAssignment

/- Mongo ObjectIds (user, group, message and subdocument ids) and `Date`
values (milliseconds since the epoch) are all modelled as `Nat`. -/

/-! ## Crypto codec (models/Message.js, statics encryptContent / decryptContent)

The source calls node's `crypto` module (AES-128-CBC under a process-wide
key, fresh 16-byte iv per call, hex-encoded ciphertext, PKCS7 padding,
`decipher.final` throwing on corrupt input).  The cipher primitive is an
external collaborator (spec section 4.4: "symmetric block-cipher
encryption under a single process-wide key"); it is modelled here by an
executable chained symmetric cipher over code points that preserves every
interface property the routes rely on: encryption depends on the key and
the fresh iv, ciphertext is a hex string, decryption with the stored iv
is the exact inverse, and malformed input makes decryption fail. -/

/-- Size of the code-point alphabet the model cipher permutes. -/
def codeSpace : Nat := 1114112

/-- Stands for the process-wide symmetric key
(`process.env.ENCRYPTION_KEY || "defaultkey123456"`). -/
def cryptoKey : Nat := 131071

/-- Hex digit characters `0`-`9`, `a`-`f`, as produced by node's
`"hex"` encoding. -/
def hexDigitChar (n : Nat) : Char :=
  if n < 10 then Char.ofNat (48 + n) else Char.ofNat (87 + n)

/-- Fixed-width (6 hex digit) encoding of one cipher unit. -/
def natToHex6 (n : Nat) : List Char :=
  [hexDigitChar (n / 16 ^ 5 % 16), hexDigitChar (n / 16 ^ 4 % 16),
   hexDigitChar (n / 16 ^ 3 % 16), hexDigitChar (n / 16 ^ 2 % 16),
   hexDigitChar (n / 16 % 16), hexDigitChar (n % 16)]

/-- Value of a hex digit character, `none` on a non-hex character. -/
def hexCharVal? (c : Char) : Option Nat :=
  if 48 ≤ c.toNat ∧ c.toNat ≤ 57 then some (c.toNat - 48)
  else if 97 ≤ c.toNat ∧ c.toNat ≤ 102 then some (c.toNat - 87)
  else none

/-- Parse a big-endian hex digit list. -/
def hexListVal? (cs : List Char) : Option Nat :=
  cs.foldl (fun acc c => do
    let a ← acc
    let v ← hexCharVal? c
    pure (a * 16 + v)) (some 0)

/-- PKCS7-style padding of the plaintext to a multiple of the block
size of 16, always adding at least one unit. -/
def padChars (cs : List Char) : List Char :=
  let r := 16 - cs.length % 16
  cs ++ List.replicate r (Char.ofNat r)

/-- Remove and validate the PKCS7-style padding; `none` models
`decipher.final` throwing on corrupt padding. -/
def unpadChars? (cs : List Char) : Option (List Char) :=
  match cs.getLast? with
  | none => none
  | some c =>
    let r := c.toNat
    if r = 0 ∨ 16 < r ∨ cs.length < r then none
    else if (cs.drop (cs.length - r)).all (fun d => d.toNat == r) then
      some (cs.take (cs.length - r))
    else none

/-- CBC-style chained encryption: each unit is shifted by the key and
the previous ciphertext unit (the iv for the first unit). -/
def chainEnc (prev : Nat) : List Char → List Nat
  | [] => []
  | c :: cs =>
    let e := (c.toNat + cryptoKey + prev) % codeSpace
    e :: chainEnc e cs

/-- Inverse of `chainEnc`. -/
def chainDec (prev : Nat) : List Nat → List Char
  | [] => []
  | e :: es =>
    let p := (e + 2 * codeSpace - cryptoKey % codeSpace - prev % codeSpace) % codeSpace
    Char.ofNat p :: chainDec e es

/-- Hex-encode the cipher units. -/
def hexEncode (es : List Nat) : String :=
  ⟨(es.map natToHex6).flatten⟩

/-- Decode a hex string back into cipher units (6 digits per unit);
`none` models the decipher throwing on malformed input. -/
def hexDecodeGroups? : List Char → Option (List Nat)
  | [] => some []
  | a :: b :: c :: d :: e :: f :: rest => do
    let v ← hexListVal? [a, b, c, d, e, f]
    let vs ← hexDecodeGroups? rest
    pure (v :: vs)
  | _ => none

/-- The iv is serialized as a hex string (`iv.toString("hex")`). -/
def ivToHex (ivn : Nat) : String :=
  ⟨natToHex6 (ivn % codeSpace)⟩

/-- Static `messageSchema.statics.encryptContent`: encrypt under the
process-wide key with the freshly generated iv `ivn`; returns the
hex ciphertext and the hex iv. -/
def encryptContent (content : String) (ivn : Nat) : String × String :=
  (hexEncode (chainEnc (ivn % codeSpace) (padChars content.data)), ivToHex ivn)

/-- Static `messageSchema.statics.decryptContent`: decrypt a hex ciphertext with
the stored hex iv; `none` models the exceptions the source catches. -/
def decryptContent? (cipher : String) (ivHex : String) : Option String := do
  let ivn ← hexListVal? ivHex.data
  let es ← hexDecodeGroups? cipher.data
  let cs ← unpadChars? (chainDec (ivn % codeSpace) es)
  pure ⟨cs⟩

/-! ## Message model (models/Message.js) -/

/-- The message schema.  `content` holds the hex ciphertext once the
pre-save hook has run (or the raw content when `encrypted` is false). -/
structure Message where
  mid : Nat
  groupId : Nat
  senderId : Nat
  content : String
  encrypted : Bool
  iv : Option String
  timestamp : Nat
  edited : Bool
  editedAt : Option Nat
  deleted : Bool
  deletedAt : Option Nat
deriving DecidableEq, Repr

/-- Hook `messageSchema.pre("save")`: when the content path was modified and
`encrypted` is set, replace `content` by its encryption under a freshly
generated iv and store that iv; otherwise leave the document alone. -/
def applySaveHook (m : Message) (contentModified : Bool) (ivn : Nat) : Message :=
  if contentModified && m.encrypted then
    { m with
      content := (encryptContent m.content ivn).1,
      iv := some (encryptContent m.content ivn).2 }
  else m

/-- Method `messageSchema.methods.getDecryptedContent`: return the content
as-is when not encrypted, otherwise decrypt, falling back to the
sentinel string when decryption throws (including a missing iv, where
`Buffer.from(undefined, "hex")` throws). -/
def Message.getDecryptedContent (m : Message) : String :=
  if !m.encrypted then m.content
  else
    match m.iv with
    | none => "[Decryption failed]"
    | some ivh => (decryptContent? m.content ivh).getD "[Decryption failed]"

/-! ## Group and User models (models/Group.js, models/User.js) -/

/-- The `type` enum of the group schema: `["public", "private"]`. -/
inductive GType where
  | pub
  | priv
deriving DecidableEq, Repr

/-- The `status` enum of a join-request subdocument. -/
inductive ReqStatus where
  | pending
  | approved
  | declined
deriving DecidableEq, Repr

/-- A `joinRequests` subdocument; `rid` models the unique `_id` Mongoose
assigns to the subdocument (used by `group.joinRequests.id(requestId)`). -/
structure JoinRequest where
  rid : Nat
  userId : Nat
  requestedAt : Nat
  status : ReqStatus
deriving DecidableEq, Repr

/-- A `bannedUsers` subdocument of the group schema. -/
structure BanRecord where
  userId : Nat
  bannedAt : Nat
  bannedBy : Nat
deriving DecidableEq, Repr

/-- The group schema.  `nextReqId` models Mongoose's generation of a
fresh subdocument `_id` for each pushed join request.  The pre-save hook
refreshes `updatedAt` on every save. -/
structure Group where
  gid : Nat
  name : String
  gtype : GType
  owner : Nat
  members : List Nat
  maxMembers : Option Int
  joinRequests : List JoinRequest
  bannedUsers : List BanRecord
  createdAt : Nat
  updatedAt : Nat
  nextReqId : Nat
deriving DecidableEq, Repr

/-- Method `groupSchema.methods.isMember`. -/
def Group.isMember (g : Group) (u : Nat) : Bool :=
  g.members.any (· == u)

/-- Method `groupSchema.methods.isBanned`. -/
def Group.isBanned (g : Group) (u : Nat) : Bool :=
  g.bannedUsers.any (·.userId == u)

/-- Method `groupSchema.methods.hasPendingRequest`. -/
def Group.hasPendingRequest (g : Group) (u : Nat) : Bool :=
  g.joinRequests.any (fun r => r.userId == u && r.status == ReqStatus.pending)

/-- The capacity guard appearing in the join and approve handlers:
`group.maxMembers && group.members.length >= group.maxMembers`
(a `null` — and, by JS truthiness, a zero — `maxMembers` disables it). -/
def Group.maxReached (g : Group) : Bool :=
  match g.maxMembers with
  | none => false
  | some m => if m = 0 then false else decide (m ≤ (g.members.length : Int))

/-- A `leftGroups` subdocument of the user schema (the cooldown ledger). -/
structure LeftRecord where
  groupId : Nat
  leftAt : Nat
deriving DecidableEq, Repr

/-- A `bannedGroups` subdocument of the user schema. -/
structure UserBan where
  groupId : Nat
  bannedAt : Nat
deriving DecidableEq, Repr

/-- The user schema.  The credential fields (`email`, `password`,
`username`) belong to the excluded identity layer and carry no behavior
in the handlers embedded here, so they are omitted. -/
structure User where
  uid : Nat
  groups : List Nat
  bannedGroups : List UserBan
  leftGroups : List LeftRecord
deriving DecidableEq, Repr

/-- Method `userSchema.methods.canRejoinPrivateGroup`: no `leftGroups` record
for the group, or at least 48 hours elapsed since its `leftAt`
(`(Date.now() - leftRecord.leftAt) / (1000*60*60) >= 48`, computed here
exactly over `ℚ`). -/
def User.canRejoinPrivateGroup (u : User) (gid : Nat) (now : Nat) : Bool :=
  match u.leftGroups.find? (·.groupId == gid) with
  | none => true
  | some r => decide ((48 : ℚ) ≤ ((now : ℚ) - (r.leftAt : ℚ)) / (1000 * 60 * 60))

/-! ## Group route handlers (routes/groups.js)

Each handler is a function of the documents its queries return and of
the request parameters.  An `Except`/`Option` error corresponds to the
handler's early `res.status(4xx)` returns, which happen before any
`save`, so the persisted documents are unchanged on those paths. -/

/-- Error responses of the group router, one constructor per distinct
`(status, error, message)` response. -/
inductive GErr where
  | missingFields
  | invalidType
  | invalidMaxMembers
  | notFound
  | alreadyMember
  | banned
  | groupFull
  | cooldown
  | requestPending
  | notMember
  | ownerCannotLeave
  | notOwner
  | groupHasMembers
  | newOwnerNotMember
  | selfBan
  | targetNotMember
  | requestNotFound
  | requestAlreadyProcessed
  | serverError
deriving DecidableEq, Repr

/-- The guard `maxMembers && maxMembers < 2` of the create handler: by
JS truthiness an absent or zero `maxMembers` skips the check. -/
def maxMembersInvalid (mm? : Option Int) : Bool :=
  match mm? with
  | none => false
  | some m => decide (m ≠ 0 ∧ m < 2)

/-- The stored bound `maxMembers: maxMembers || null`: by JS truthiness
an absent or zero `maxMembers` is stored as null (= unlimited). -/
def storedMax (mm? : Option Int) : Option Int :=
  match mm? with
  | none => none
  | some m => if m = 0 then none else some m

/-- Handler `router.post("/")` — CreateGroup.  Validates name/type presence, the
type enum, and `maxMembers`; on success returns the new group with the
creator as owner and sole member.  The route additionally pushes the new
group id onto the creator's `groups`; only the group document is
returned here. -/
def createGroup (name : String) (gtypeStr : String) (maxMembers? : Option Int)
    (userId : Nat) (gid : Nat) (now : Nat) : Except GErr Group :=
  if name = "" ∨ gtypeStr = "" then .error .missingFields
  else if gtypeStr ≠ "public" ∧ gtypeStr ≠ "private" then .error .invalidType
  else if maxMembersInvalid maxMembers? then .error .invalidMaxMembers
  else
    .ok { gid := gid, name := name,
          gtype := if gtypeStr = "public" then .pub else .priv,
          owner := userId, members := [userId],
          maxMembers := storedMax maxMembers?,
          joinRequests := [], bannedUsers := [],
          createdAt := now, updatedAt := now, nextReqId := 0 }

/-- Handler `router.post("/:groupId/join")` — JoinGroup, with the outcome of the
two `save` calls made explicit (`group.save()` and, on the public path,
the subsequent `user.save()`).  Returns the error response (if any)
together with the persisted group and user documents: an exception from
a `save` is caught by the handler's `catch` (500 `serverError`), but a
save that already succeeded is not rolled back. -/
def joinGroupPersist (g : Group) (u : User) (now : Nat)
    (groupSaveOk userSaveOk : Bool) : Option GErr × Group × User :=
  if g.isMember u.uid then (some .alreadyMember, g, u)
  else if g.isBanned u.uid then (some .banned, g, u)
  else if g.maxReached then (some .groupFull, g, u)
  else
    match g.gtype with
    | .pub =>
      if groupSaveOk then
        let g' := { g with members := g.members ++ [u.uid], updatedAt := now }
        if userSaveOk then
          (none, g', { u with groups := u.groups ++ [g.gid] })
        else (some .serverError, g', u)
      else (some .serverError, g, u)
    | .priv =>
      if !u.canRejoinPrivateGroup g.gid now then (some .cooldown, g, u)
      else if g.hasPendingRequest u.uid then (some .requestPending, g, u)
      else if groupSaveOk then
        (none,
         { g with
           joinRequests := g.joinRequests ++
             [{ rid := g.nextReqId, userId := u.uid,
                requestedAt := now, status := .pending }],
           nextReqId := g.nextReqId + 1,
           updatedAt := now }, u)
      else (some .serverError, g, u)

/-- JoinGroup on the path where both saves succeed. -/
def joinGroup (g : Group) (u : User) (now : Nat) : Except GErr (Group × User) :=
  match joinGroupPersist g u now true true with
  | (none, g', u') => .ok (g', u')
  | (some e, _, _) => .error e

/-- The upsert of the cooldown ledger performed by the leave handler:
`findIndex` on `leftGroups`, overwrite `leftAt` of the first existing
record for the group, else push a new record. -/
def upsertLeft (gid : Nat) (now : Nat) : List LeftRecord → List LeftRecord
  | [] => [{ groupId := gid, leftAt := now }]
  | r :: rs =>
    if r.groupId == gid then { groupId := r.groupId, leftAt := now } :: rs
    else r :: upsertLeft gid now rs

/-- Handler `router.post("/:groupId/leave")` — LeaveGroup.  Removes the user from
the members list, removes the group from the user's `groups`, and for a
private group upserts `leftAt = now` into the cooldown ledger. -/
def leaveGroup (g : Group) (u : User) (now : Nat) : Except GErr (Group × User) :=
  if !g.isMember u.uid then .error .notMember
  else if g.owner == u.uid then .error .ownerCannotLeave
  else
    let g' := { g with
      members := g.members.filter (fun m => m != u.uid),
      updatedAt := now }
    let u1 := { u with groups := u.groups.filter (fun x => x != g.gid) }
    let u2 := if g.gtype = .priv then
        { u1 with leftGroups := upsertLeft g.gid now u1.leftGroups }
      else u1
    .ok (g', u2)

/-- Handler `router.post("/:groupId/transfer")` — TransferOwnership. -/
def transferOwnership (g : Group) (actorId newOwnerId : Nat)
    (now : Nat) : Except GErr Group :=
  if g.owner != actorId then .error .notOwner
  else if !g.isMember newOwnerId then .error .newOwnerNotMember
  else .ok { g with owner := newOwnerId, updatedAt := now }

/-- Handler `router.post("/:groupId/banish")` — BanishUser.  Removes the target
from members, appends a ban record to the group and to the target's
user document. -/
def banishUser (g : Group) (actorId : Nat) (target : User)
    (now : Nat) : Except GErr (Group × User) :=
  if g.owner != actorId then .error .notOwner
  else if target.uid == actorId then .error .selfBan
  else if !g.isMember target.uid then .error .targetNotMember
  else
    let g' := { g with
      members := g.members.filter (fun m => m != target.uid),
      bannedUsers := g.bannedUsers ++ [{ userId := target.uid, bannedAt := now,
                                         bannedBy := actorId }],
      updatedAt := now }
    let t' := { target with
      groups := target.groups.filter (fun x => x != g.gid),
      bannedGroups := target.bannedGroups ++ [{ groupId := g.gid, bannedAt := now }] }
    .ok (g', t')

/-- Lookup `group.joinRequests.id(requestId)`: the subdocument with the given id. -/
def findRequest? (g : Group) (rid : Nat) : Option JoinRequest :=
  g.joinRequests.find? (·.rid == rid)

/-- Set the status of the subdocument with the given id (the in-place
assignment `request.status = ...` on the document `joinRequests.id`
returned). -/
def setRequestStatus (rid : Nat) (st : ReqStatus) :
    List JoinRequest → List JoinRequest
  | [] => []
  | r :: rs =>
    if r.rid == rid then { r with status := st } :: rs
    else r :: setRequestStatus rid st rs

/-- Handler `router.post("/:groupId/approve")` — ApproveJoinRequest.  Owner only;
the request must exist and be pending; the capacity guard is re-run at
approval time; on success the request is approved and the requestor
pushed onto members (the route additionally pushes the group id onto the
requestor's `groups`). -/
def approveRequest (g : Group) (actorId : Nat) (rid : Nat)
    (now : Nat) : Except GErr Group :=
  if g.owner != actorId then .error .notOwner
  else
    match findRequest? g rid with
    | none => .error .requestNotFound
    | some req =>
      if req.status ≠ .pending then .error .requestAlreadyProcessed
      else if g.maxReached then .error .groupFull
      else
        .ok { g with
              joinRequests := setRequestStatus rid .approved g.joinRequests,
              members := g.members ++ [req.userId],
              updatedAt := now }

/-- Handler `router.post("/:groupId/decline")` — DeclineJoinRequest.  Owner only;
the request must exist and be pending; on success only the request's
status is set to declined (plus the save hook's `updatedAt` refresh). -/
def declineRequest (g : Group) (actorId : Nat) (rid : Nat)
    (now : Nat) : Except GErr Group :=
  if g.owner != actorId then .error .notOwner
  else
    match findRequest? g rid with
    | none => .error .requestNotFound
    | some req =>
      if req.status ≠ .pending then .error .requestAlreadyProcessed
      else
        .ok { g with
              joinRequests := setRequestStatus rid .declined g.joinRequests,
              updatedAt := now }

/-! ## Message route handlers (routes/messages.js) -/

/-- Error responses of the message router, one constructor per distinct
`(status, error, message)` response. -/
inductive MsgErr where
  | missingContent
  | groupNotFound
  | notMemberSend
  | notMemberView
  | notMemberSearch
  | messageNotFound
  | messageDeleted
  | notSender
  | timeLimitExceeded
  | alreadyDeleted
  | deleteForbidden
  | missingQuery
deriving DecidableEq, Repr

/-- Whitespace for JS `String.prototype.trim` (the ASCII whitespace and
line-terminator characters plus no-break space). -/
def jsIsSpace (c : Char) : Bool :=
  c == Char.ofNat 32 || c == Char.ofNat 9 || c == Char.ofNat 10 ||
  c == Char.ofNat 11 || c == Char.ofNat 12 || c == Char.ofNat 13 ||
  c == Char.ofNat 160

/-- JS `String.prototype.trim`: strip leading and trailing whitespace. -/
def jsTrim (s : String) : String :=
  ⟨((s.data.dropWhile jsIsSpace).reverse.dropWhile jsIsSpace).reverse⟩

/-- The edit-window guard of the edit handler:
`(Date.now() - message.timestamp) / (1000 * 60) > 15`, computed here
exactly over `ℚ`. -/
def editWindowExceeded (now ts : Nat) : Bool :=
  decide ((15 : ℚ) < ((now : ℚ) - (ts : ℚ)) / (1000 * 60))

/-- Handler `router.post("/:groupId")` — SendMessage.  Validates non-blank
content, group existence and membership; builds the document with the
trimmed content and `encrypted: true`; `save` triggers the pre-save hook
which encrypts under the fresh iv `ivn`. -/
def sendMessage (group? : Option Group) (userId : Nat) (content : String)
    (newMid : Nat) (now : Nat) (ivn : Nat) : Except MsgErr Message :=
  if (jsTrim content).length = 0 then .error .missingContent
  else
    match group? with
    | none => .error .groupNotFound
    | some g =>
      if !g.isMember userId then .error .notMemberSend
      else
        let m : Message :=
          { mid := newMid, groupId := g.gid, senderId := userId,
            content := jsTrim content, encrypted := true, iv := none,
            timestamp := now, edited := false, editedAt := none,
            deleted := false, deletedAt := none }
        .ok (applySaveHook m true ivn)

/-- Handler `router.put("/:messageId")` — EditMessage.  Validates non-blank
content, existence, not-deleted, sender, and the 15-minute window
anchored at `message.timestamp`; then assigns
`content := Message.encryptContent(content.trim())` (iv `ivn1`) together
with `edited`/`editedAt` and saves — and since the content path was
modified and `encrypted` is still set, the pre-save hook encrypts the
assigned value once more under the fresh iv `ivn2`. -/
def editMessage (message? : Option Message) (userId : Nat) (content : String)
    (now : Nat) (ivn1 ivn2 : Nat) : Except MsgErr Message :=
  if (jsTrim content).length = 0 then .error .missingContent
  else
    match message? with
    | none => .error .messageNotFound
    | some m =>
      if m.deleted then .error .messageDeleted
      else if m.senderId != userId then .error .notSender
      else if editWindowExceeded now m.timestamp then .error .timeLimitExceeded
      else
        let m1 := { m with
          content := (encryptContent (jsTrim content) ivn1).1,
          iv := some (encryptContent (jsTrim content) ivn1).2,
          edited := true, editedAt := some now }
        .ok (applySaveHook m1 true ivn2)

/-- Handler `router.delete("/:messageId")` — DeleteMessage.  `group?` is the
result of `Group.findById(message.groupId)`; deletion is allowed to the
sender or to the owner of that group.  The save does not touch the
content path, so the pre-save hook leaves the document alone. -/
def deleteMessage (message? : Option Message) (group? : Option Group)
    (userId : Nat) (now : Nat) : Except MsgErr Message :=
  match message? with
  | none => .error .messageNotFound
  | some m =>
    if m.deleted then .error .alreadyDeleted
    else
      let isOwner := match group? with
        | some g => g.owner == userId
        | none => false
      let isSender := m.senderId == userId
      if !isSender && !isOwner then .error .deleteForbidden
      else .ok (applySaveHook { m with deleted := true, deletedAt := some now } false 0)

/-- Insert a message into a list kept in descending timestamp order. -/
def insertDesc (m : Message) : List Message → List Message
  | [] => [m]
  | x :: xs =>
    if x.timestamp ≤ m.timestamp then m :: x :: xs
    else x :: insertDesc m xs

/-- The repository's `sort("-timestamp")`: newest first. -/
def sortByTimestampDesc (ms : List Message) : List Message :=
  ms.foldr insertDesc []

/-- The Mongo query built by the list handler: same group, not deleted,
and `timestamp < before` when `before` is given, else `timestamp > after`
when `after` is given (`before` takes precedence). -/
def matchesListQuery (gid : Nat) (before? after? : Option Nat)
    (m : Message) : Bool :=
  m.groupId == gid && m.deleted == false &&
    (match before?, after? with
     | some b, _ => decide (m.timestamp < b)
     | none, some a => decide (a < m.timestamp)
     | none, none => true)

/-- The per-message record the list handler returns (decrypted view). -/
structure ListedMessage where
  mid : Nat
  groupId : Nat
  senderId : Nat
  content : String
  timestamp : Nat
  edited : Bool
  editedAt : Option Nat
deriving DecidableEq, Repr

/-- Decrypted projection used by the list handler's `map`. -/
def listedOf (m : Message) : ListedMessage :=
  { mid := m.mid, groupId := m.groupId, senderId := m.senderId,
    content := m.getDecryptedContent, timestamp := m.timestamp,
    edited := m.edited, editedAt := m.editedAt }

/-- Handler `router.get("/:groupId")` — ListMessages.  Fetches the matching
messages newest-first up to `limit`, decrypts, and answers them reversed
(chronological order) together with
`hasMore := (messages.length === limit)`. -/
def listMessages (group? : Option Group) (userId : Nat) (msgs : List Message)
    (limit : Nat) (before? after? : Option Nat) :
    Except MsgErr (List ListedMessage × Bool) :=
  match group? with
  | none => .error .groupNotFound
  | some g =>
    if !g.isMember userId then .error .notMemberView
    else
      let fetched :=
        (sortByTimestampDesc (msgs.filter (matchesListQuery g.gid before? after?))).take limit
      .ok ((fetched.map listedOf).reverse, fetched.length == limit)

/-- JS `String.prototype.toLowerCase` on the character range the
handlers use. -/
def jsToLower (s : String) : String :=
  ⟨s.data.map Char.toLower⟩

/-- Does the second character list start with the first? -/
def leadsWith : List Char → List Char → Bool
  | [], _ => true
  | _ :: _, [] => false
  | a :: as, b :: bs => a == b && leadsWith as bs

/-- Does the character list contain the needle as a contiguous run? -/
def containsChars (needle : List Char) : List Char → Bool
  | [] => needle.isEmpty
  | c :: rest => leadsWith needle (c :: rest) || containsChars needle rest

/-- JS `String.prototype.includes`: substring containment. -/
def includesStr (hay needle : String) : Bool :=
  containsChars needle.data hay.data

/-- The per-message record the search handler returns. -/
structure SearchResult where
  mid : Nat
  groupId : Nat
  senderId : Nat
  content : String
  timestamp : Nat
  edited : Bool
deriving DecidableEq, Repr

/-- Decrypted projection used by the search handler's push. -/
def resultOf (m : Message) : SearchResult :=
  { mid := m.mid, groupId := m.groupId, senderId := m.senderId,
    content := m.getDecryptedContent, timestamp := m.timestamp,
    edited := m.edited }

/-- The window the search handler fetches: the most recent 500
non-deleted messages of the group, newest first (`sort("-timestamp")`,
`limit(500)`). -/
def searchWindow (gid : Nat) (msgs : List Message) : List Message :=
  (sortByTimestampDesc
    (msgs.filter (fun m => m.groupId == gid && m.deleted == false))).take 500

/-- The search handler's scan loop: decrypt each message, push it when
the lowercased content contains `term`, and after each iteration break
once `searchResults.length >= limit`. -/
def searchLoop (term : String) (limit : Nat) :
    List Message → List SearchResult → List SearchResult
  | [], acc => acc
  | m :: rest, acc =>
    let acc' :=
      if includesStr (jsToLower m.getDecryptedContent) term then acc ++ [resultOf m]
      else acc
    if limit ≤ acc'.length then acc'
    else searchLoop term limit rest acc'

/-- Handler `router.get("/:groupId/search")` — SearchMessages. -/
def searchMessages (group? : Option Group) (userId : Nat)
    (msgs : List Message) (q : String) (limit : Nat) :
    Except MsgErr (List SearchResult) :=
  if (jsTrim q).length = 0 then .error .missingQuery
  else
    match group? with
    | none => .error .groupNotFound
    | some g =>
      if !g.isMember userId then .error .notMemberSearch
      else .ok (searchLoop (jsToLower q) limit (searchWindow g.gid msgs) [])

/-! ## Sequences of membership operations

For the invariant claims the membership handlers are folded over a
trace.  Each step carries the acting user's document and the clock as
free parameters; a handler error leaves the (persisted) group
unchanged, since every error return happens before the `save`. -/

/-- One membership operation on a fixed group. -/
inductive MOp where
  | join (u : User) (now : Nat)
  | leave (u : User) (now : Nat)
  | transfer (actorId newOwnerId : Nat) (now : Nat)
  | banish (actorId : Nat) (target : User) (now : Nat)
  | approve (actorId : Nat) (rid : Nat) (now : Nat)
  | decline (actorId : Nat) (rid : Nat) (now : Nat)

/-- Effect of one membership operation on the group document. -/
def applyMOp (g : Group) : MOp → Group
  | .join u now => (joinGroupPersist g u now true true).2.1
  | .leave u now =>
    match leaveGroup g u now with
    | .ok (g', _) => g'
    | .error _ => g
  | .transfer actorId newOwnerId now =>
    match transferOwnership g actorId newOwnerId now with
    | .ok g' => g'
    | .error _ => g
  | .banish actorId target now =>
    match banishUser g actorId target now with
    | .ok (g', _) => g'
    | .error _ => g
  | .approve actorId rid now =>
    match approveRequest g actorId rid now with
    | .ok g' => g'
    | .error _ => g
  | .decline actorId rid now =>
    match declineRequest g actorId rid now with
    | .ok g' => g'
    | .error _ => g

/-- Run a trace of membership operations. -/
def runMOps (g : Group) (ops : List MOp) : Group :=
  ops.foldl applyMOp g

/-- Effect of one LeaveGroup call on the acting user's document. -/
def applyLeave (u : User) (gn : Group × Nat) : User :=
  match leaveGroup gn.1 u gn.2 with
  | .ok (_, u') => u'
  | .error _ => u

/-- Run a trace of LeaveGroup calls on one user. -/
def runLeaves (u : User) (l : List (Group × Nat)) : User :=
  l.foldl applyLeave u

/-- Number of cooldown-ledger records a user holds for one group. -/
def countLeft (u : User) (gid : Nat) : Nat :=
  (u.leftGroups.filter (·.groupId == gid)).length

/-- The membership/capacity invariant of claim C2: the owner is in the
members list, and the members list does not exceed `maxMembers` when
that is set. -/
def GroupInv (g : Group) : Prop :=
  g.owner ∈ g.members ∧
  ∀ m, g.maxMembers = some m → (g.members.length : Int) ≤ m

/-- Auxiliary strengthening: a stored `maxMembers` is at least 2
(guaranteed by CreateGroup's validation and never modified after). -/
def MaxValid (g : Group) : Prop :=
  ∀ m, g.maxMembers = some m → 2 ≤ m

/-! ## Sample documents used by the concrete instances -/

/-- A stored non-deleted message from user 2 in group 10 ("hello",
encrypted by the save hook with iv 5). -/
def sampleSent : Message :=
  applySaveHook
    { mid := 1, groupId := 10, senderId := 2, content := "hello",
      encrypted := true, iv := none, timestamp := 1000, edited := false,
      editedAt := none, deleted := false, deletedAt := none }
    true 5

/-- A public group 10 owned by user 3 with members 3 and 2. -/
def sampleOwnerGroup : Group :=
  { gid := 10, name := "Alpha", gtype := .pub, owner := 3,
    members := [3, 2], maxMembers := none, joinRequests := [],
    bannedUsers := [], createdAt := 0, updatedAt := 0, nextReqId := 0 }

/-- A private group 10 at capacity (2 of 2) with a pending request from
user 2. -/
def samplePrivFullGroup : Group :=
  { gid := 10, name := "Alpha", gtype := .priv, owner := 1,
    members := [1, 3], maxMembers := some 2,
    joinRequests := [{ rid := 0, userId := 2, requestedAt := 50, status := .pending }],
    bannedUsers := [], createdAt := 0, updatedAt := 0, nextReqId := 1 }

/-- A user who left group 10 at time 90 (cooldown active shortly after). -/
def sampleCdUser : User :=
  { uid := 2, groups := [], bannedGroups := [],
    leftGroups := [{ groupId := 10, leftAt := 90 }] }

/-! ## Basic lemmas about the model -/

theorem isMember_iff (g : Group) (u : Nat) :
    g.isMember u = true ↔ u ∈ g.members := by
  simp [Group.isMember, List.any_eq_true]

theorem applySaveHook_skip (m : Message) (ivn : Nat) :
    applySaveHook m false ivn = m := by
  simp [applySaveHook]

theorem applySaveHook_timestamp (m : Message) (b : Bool) (ivn : Nat) :
    (applySaveHook m b ivn).timestamp = m.timestamp := by
  unfold applySaveHook
  split <;> rfl

/-- The edit-window guard holds exactly when more than 900000
milliseconds (15 minutes) have passed since the send timestamp. -/
theorem editWindowExceeded_iff (now ts : Nat) :
    editWindowExceeded now ts = true ↔ 900000 < now - ts := by
  unfold editWindowExceeded
  rw [decide_eq_true_iff, lt_div_iff₀ (by norm_num : (0 : ℚ) < 1000 * 60)]
  constructor
  · intro h
    have h' : (900000 : ℚ) < (now : ℚ) - (ts : ℚ) := by linarith
    have h'' : (900000 + ts : ℕ) < now := by
      have hq := lt_sub_iff_add_lt.mp h'
      exact_mod_cast hq
    omega
  · intro h
    have h'' : (900000 + ts : ℕ) < now := by omega
    have h' : ((900000 : ℚ) + (ts : ℚ)) < (now : ℚ) := by exact_mod_cast h''
    linarith

/-! ## Claim C5 — the edit window -/

/-- C5: for a non-deleted message edited by its sender with non-blank
content, EditMessage fails with the time-limit error exactly when more
than 15 minutes (900000 ms) have passed since the original send
timestamp; a successful edit keeps `timestamp` unchanged (so the window
stays anchored at the original send, not at the previous edit); an edit
899000 ms (14:59) after send succeeds and one 901000 ms (15:01) after
send fails. -/
theorem edit_window_spec (m : Message) (c : String) (now : Nat) (i1 i2 : Nat)
    (hc : (jsTrim c).length ≠ 0) (hd : m.deleted = false) :
    ((editMessage (some m) m.senderId c now i1 i2 = .error .timeLimitExceeded) ↔
       900000 < now - m.timestamp) ∧
    (∀ m', editMessage (some m) m.senderId c now i1 i2 = .ok m' →
       m'.timestamp = m.timestamp) ∧
    (∃ m', editMessage (some m) m.senderId c (m.timestamp + 899000) i1 i2 = .ok m') ∧
    editMessage (some m) m.senderId c (m.timestamp + 901000) i1 i2 =
      .error .timeLimitExceeded := by
  refine ⟨?_, ?_, ?_, ?_⟩
  · rw [← editWindowExceeded_iff]
    by_cases hw : editWindowExceeded now m.timestamp
    · simp [editMessage, hc, hd, hw]
    · simp [editMessage, hc, hd, hw]
  · intro m' h
    by_cases hw : editWindowExceeded now m.timestamp
    · simp [editMessage, hc, hd, hw] at h
    · simp [editMessage, hc, hd, hw] at h
      rw [← h, applySaveHook_timestamp]
  · have hw : editWindowExceeded (m.timestamp + 899000) m.timestamp = false := by
      rw [Bool.eq_false_iff, Ne, editWindowExceeded_iff]
      omega
    cases hres : editMessage (some m) m.senderId c (m.timestamp + 899000) i1 i2 with
    | ok m' => exact ⟨m', rfl⟩
    | error e => simp [editMessage, hc, hd, hw] at hres
  · have hw : editWindowExceeded (m.timestamp + 901000) m.timestamp = true := by
      rw [editWindowExceeded_iff]
      omega
    simp [editMessage, hc, hd, hw]

/-- Concrete instance of `edit_window_spec` (claim C5). -/
theorem edit_window_spec_witness :
    editMessage (some sampleSent) sampleSent.senderId "bye"
      (sampleSent.timestamp + 901000) 7 9 = .error .timeLimitExceeded :=
  (edit_window_spec sampleSent "bye" 0 7 9 (by decide) (by decide)).2.2.2

/-! ## Claim C9 — soft delete frame -/

/-- C9: for a non-deleted message, DeleteMessage succeeds exactly for the
sender or the owner of the message's group, and the successful result is
the input message with only `deleted`/`deletedAt` changed — ciphertext
(`content`), `iv`, `senderId`, `timestamp` and the edited flags are left
untouched; in particular deletion never clears content. -/
theorem delete_message_frame (m : Message) (group? : Option Group)
    (userId : Nat) (now : Nat) (hd : m.deleted = false) :
    ((deleteMessage (some m) group? userId now =
        .ok { m with deleted := true, deletedAt := some now }) ↔
      (m.senderId = userId ∨ ∃ g, group? = some g ∧ g.owner = userId)) ∧
    (∀ m', deleteMessage (some m) group? userId now = .ok m' →
       m' = { m with deleted := true, deletedAt := some now }) := by
  constructor
  · by_cases hs : m.senderId = userId
    · simp [deleteMessage, hd, hs, applySaveHook_skip]
    · cases group? with
      | none => simp [deleteMessage, hd, hs, applySaveHook_skip]
      | some g =>
        by_cases ho : g.owner = userId
        · simp [deleteMessage, hd, hs, ho, applySaveHook_skip]
        · simp [deleteMessage, hd, hs, ho, applySaveHook_skip]
  · intro m' h
    by_cases hs : m.senderId = userId
    · simp [deleteMessage, hd, hs, applySaveHook_skip] at h
      rw [hs]
      exact h.symm
    · cases group? with
      | none => simp [deleteMessage, hd, hs, applySaveHook_skip] at h
      | some g =>
        by_cases ho : g.owner = userId
        · simp [deleteMessage, hd, hs, ho, applySaveHook_skip] at h
          exact h.symm
        · simp [deleteMessage, hd, hs, ho, applySaveHook_skip] at h

/-- Concrete instance of `delete_message_frame` (claim C9): the group
owner (user 3) deletes user 2's message. -/
theorem delete_message_frame_witness :
    (deleteMessage (some sampleSent) (some sampleOwnerGroup) 3 5000 =
        .ok { sampleSent with deleted := true, deletedAt := some 5000 }) ↔
      (sampleSent.senderId = 3 ∨
        ∃ g, (some sampleOwnerGroup : Option Group) = some g ∧ g.owner = 3) :=
  (delete_message_frame sampleSent (some sampleOwnerGroup) 3 5000 (by decide)).1

/-! ## Claim C10 — capacity check precedes the private-join checks -/

/-- C10: joining a private group whose `maxMembers` is set and whose
members list is at capacity fails with the group-full error for any
non-member, non-banned user — regardless of cooldown state or pending
requests, since the capacity guard runs before the private-group branch
— and the persisted group (in particular its `joinRequests`) and the
user are unchanged. -/
theorem private_join_capacity_first (g : Group) (u : User) (now : Nat)
    (sv1 sv2 : Bool) (mm : Int)
    (hp : g.gtype = .priv) (hmax : g.maxMembers = some mm) (h2 : 2 ≤ mm)
    (hcap : mm ≤ (g.members.length : Int))
    (hnm : g.isMember u.uid = false) (hnb : g.isBanned u.uid = false) :
    joinGroupPersist g u now sv1 sv2 = (some .groupFull, g, u) ∧
    joinGroup g u now = .error .groupFull ∧
    applyMOp g (.join u now) = g := by
  have hne : mm ≠ 0 := by omega
  have hfull : g.maxReached = true := by
    simp only [Group.maxReached, hmax]
    rw [if_neg hne]
    exact decide_eq_true hcap
  have h1 : ∀ a b : Bool, joinGroupPersist g u now a b = (some .groupFull, g, u) := by
    intro a b
    unfold joinGroupPersist
    simp [hnm, hnb, hfull]
  refine ⟨h1 sv1 sv2, ?_, ?_⟩
  · unfold joinGroup
    rw [h1 true true]
  · simp only [applyMOp]
    rw [h1 true true]

/-- Concrete instance of `private_join_capacity_first` (claim C10): the
joining user has an active cooldown and a pending request, yet the
answer is group-full. -/
theorem private_join_capacity_first_witness :
    joinGroupPersist samplePrivFullGroup sampleCdUser 100 true true =
      (some .groupFull, samplePrivFullGroup, sampleCdUser) :=
  (private_join_capacity_first samplePrivFullGroup sampleCdUser 100 true true 2
    rfl rfl (by norm_num) (by decide) (by decide) (by decide)).1

/-! ## Claim C1 — EditMessage double-encrypts

The edit handler assigns the already-encrypted
`Message.encryptContent(content.trim())` to `message.content` and then
calls `save()`; since the content path is modified and `encrypted` is
still true, the pre-save hook of models/Message.js encrypts that
ciphertext a second time.  The stored pair therefore decrypts to the
intermediate hex ciphertext of the trimmed content, not to the trimmed
content itself. -/

/-- The message obtained by editing `sampleSent` (sender 2) to `" bye "`
within the window: the handler encrypts the trimmed content with iv 7
and the save hook re-encrypts with iv 9. -/
def sampleEdited : Message :=
  applySaveHook
    { sampleSent with
      content := (encryptContent (jsTrim " bye ") 7).1,
      iv := some (encryptContent (jsTrim " bye ") 7).2,
      edited := true,
      editedAt := some 60000 }
    true 9

set_option maxRecDepth 8000 in
/-- C1 at its failing input: a successful in-window edit of "hello" to
`" bye "` by the sender stores a ciphertext/iv pair whose decryption is
the intermediate hex ciphertext `(encryptContent "bye" 7).1` — not the
trimmed new content "bye". -/
theorem edit_double_encryption_bug :
    editMessage (some sampleSent) 2 " bye " 60000 7 9 = .ok sampleEdited ∧
    sampleEdited.getDecryptedContent = (encryptContent "bye" 7).1 ∧
    sampleEdited.getDecryptedContent ≠ "bye" := by
  have hts : sampleSent.timestamp = 1000 := by decide
  have hw : editWindowExceeded 60000 sampleSent.timestamp = false := by
    rw [Bool.eq_false_iff, Ne, editWindowExceeded_iff, hts]
    omega
  have h1 : ¬((jsTrim " bye ").length = 0) := by decide
  have h2 : sampleSent.deleted = false := by decide
  have h3 : (sampleSent.senderId != 2) = false := by decide
  refine ⟨?_, by decide, by decide⟩
  simp only [editMessage, if_neg h1, h2, h3, hw, Bool.false_eq_true, if_false]
  rfl

/-! ## Claim C3 — the public-join writes are sequential, not atomic -/

/-- A public group 20 owned by user 1, sole member. -/
def samplePubGroup : Group :=
  { gid := 20, name := "Beta", gtype := .pub, owner := 1,
    members := [1], maxMembers := none, joinRequests := [],
    bannedUsers := [], createdAt := 0, updatedAt := 0, nextReqId := 0 }

/-- A fresh user 2 with no groups, bans or cooldowns. -/
def sampleFreshUser : User :=
  { uid := 2, groups := [], bannedGroups := [], leftGroups := [] }

/-- C3 counterexample: when the group-side save succeeds and the
user-side save fails, the handler reports a 500 error, the persisted
group has already gained the member, and the user document is unchanged
— so the two updates are neither both applied nor both rolled back, and
the failure of the second (user-side) write does not leave the group's
members set unchanged. -/
theorem public_join_not_atomic_counterexample :
    (joinGroupPersist samplePubGroup sampleFreshUser 50 true false).1 =
      some .serverError ∧
    (joinGroupPersist samplePubGroup sampleFreshUser 50 true false).2.1.members =
      [1, 2] ∧
    (joinGroupPersist samplePubGroup sampleFreshUser 50 true false).2.2.groups =
      [] ∧
    (joinGroupPersist samplePubGroup sampleFreshUser 50 true false).2.1.members ≠
      samplePubGroup.members := by
  refine ⟨rfl, rfl, rfl, by decide⟩

/-- C3 amended: for a public group and a user passing the membership,
ban and capacity guards, the two writes are applied sequentially, group
first.  When both saves succeed, both the group and the user are
updated; when the group save succeeds but the user save fails, the
request errors yet the user id remains in the persisted group's members
(no rollback), the user document unchanged; when the group save fails,
neither document changes. -/
theorem public_join_sequential_writes (g : Group) (u : User) (now : Nat)
    (gOk uOk : Bool)
    (hpub : g.gtype = .pub) (hnm : g.isMember u.uid = false)
    (hnb : g.isBanned u.uid = false) (hfull : g.maxReached = false) :
    joinGroupPersist g u now gOk uOk =
      (if gOk then
        if uOk then
          (none, { g with members := g.members ++ [u.uid], updatedAt := now },
           { u with groups := u.groups ++ [g.gid] })
        else
          (some .serverError,
           { g with members := g.members ++ [u.uid], updatedAt := now }, u)
       else (some .serverError, g, u)) := by
  unfold joinGroupPersist
  simp [hnm, hnb, hfull, hpub]

/-- Concrete instance of `public_join_sequential_writes` (claim C3):
with both saves succeeding, both documents are updated. -/
theorem public_join_sequential_writes_witness :
    joinGroupPersist samplePubGroup sampleFreshUser 50 true true =
      (none, { samplePubGroup with members := [1, 2], updatedAt := 50 },
       { sampleFreshUser with groups := [20] }) := by
  rw [public_join_sequential_writes samplePubGroup sampleFreshUser 50 true true
    rfl (by decide) (by decide) (by decide)]
  decide

/-! ## Lemmas about join-request lookup and mutation -/

theorem find?_append_left {α : Type} (p : α → Bool) (l l' : List α) (a : α)
    (h : l.find? p = some a) : (l ++ l').find? p = some a := by
  induction l with
  | nil => simp at h
  | cons x xs ih =>
    rw [List.cons_append]
    cases hp : p x with
    | true =>
      rw [List.find?_cons_of_pos _ hp] at h
      rw [List.find?_cons_of_pos _ hp]
      exact h
    | false =>
      rw [List.find?_cons_of_neg _ (by simp [hp])] at h
      rw [List.find?_cons_of_neg _ (by simp [hp])]
      exact ih h

/-- Setting the status of one request id leaves `joinRequests.id` lookups
of any other id unchanged. -/
theorem find?_setRequestStatus_ne (rid rid' : Nat) (st : ReqStatus)
    (l : List JoinRequest) (hne : rid' ≠ rid) :
    (setRequestStatus rid' st l).find? (·.rid == rid) =
      l.find? (·.rid == rid) := by
  induction l with
  | nil => rfl
  | cons r rs ih =>
    by_cases h : (r.rid == rid') = true
    · have hr : r.rid = rid' := by simpa using h
      have hq : (r.rid == rid) = false := by simp [hr, hne]
      simp only [setRequestStatus, if_pos h]
      simp [List.find?, hq]
    · simp only [setRequestStatus, if_neg h]
      cases hq : (r.rid == rid) with
      | true => simp [List.find?, hq]
      | false =>
        simp only [List.find?, hq]
        exact ih

/-- Inversion of a successful approval. -/
theorem approveRequest_ok_inv (g : Group) (actorId rid now : Nat) (g' : Group)
    (h : approveRequest g actorId rid now = .ok g') :
    ∃ req, findRequest? g rid = some req ∧ req.status = .pending ∧
      g.maxReached = false ∧
      g' = { g with
        joinRequests := setRequestStatus rid .approved g.joinRequests,
        members := g.members ++ [req.userId], updatedAt := now } := by
  unfold approveRequest at h
  split at h
  · exact absurd h (by simp)
  split at h
  · exact absurd h (by simp)
  next req hfind =>
    split at h
    · exact absurd h (by simp)
    next hst =>
      split at h
      · exact absurd h (by simp)
      next hmr =>
        refine ⟨req, hfind, by simpa using hst, by simpa using hmr, ?_⟩
        simpa using h.symm

/-- Inversion of a successful decline. -/
theorem declineRequest_ok_inv (g : Group) (actorId rid now : Nat) (g' : Group)
    (h : declineRequest g actorId rid now = .ok g') :
    ∃ req, findRequest? g rid = some req ∧ req.status = .pending ∧
      g' = { g with
        joinRequests := setRequestStatus rid .declined g.joinRequests,
        updatedAt := now } := by
  unfold declineRequest at h
  split at h
  · exact absurd h (by simp)
  split at h
  · exact absurd h (by simp)
  next req hfind =>
    split at h
    · exact absurd h (by simp)
    next hst =>
      refine ⟨req, hfind, by simpa using hst, ?_⟩
      simpa using h.symm

/-- A successful leave does not touch the join requests. -/
theorem leaveGroup_ok_joinRequests (g : Group) (u : User) (now : Nat)
    (g' : Group) (u' : User) (h : leaveGroup g u now = .ok (g', u')) :
    g'.joinRequests = g.joinRequests := by
  unfold leaveGroup at h
  split at h
  · exact absurd h (by simp)
  · split at h
    · exact absurd h (by simp)
    · simp only [Except.ok.injEq, Prod.mk.injEq] at h
      rw [← h.1]

/-- A successful ownership transfer does not touch the join requests. -/
theorem transferOwnership_ok_joinRequests (g : Group) (a b now : Nat)
    (g' : Group) (h : transferOwnership g a b now = .ok g') :
    g'.joinRequests = g.joinRequests := by
  unfold transferOwnership at h
  split at h
  · exact absurd h (by simp)
  · split at h
    · exact absurd h (by simp)
    · simp only [Except.ok.injEq] at h
      rw [← h]

/-- A successful banishment does not touch the join requests. -/
theorem banishUser_ok_joinRequests (g : Group) (a : Nat) (t : User) (now : Nat)
    (g' : Group) (u' : User) (h : banishUser g a t now = .ok (g', u')) :
    g'.joinRequests = g.joinRequests := by
  unfold banishUser at h
  split at h
  · exact absurd h (by simp)
  · split at h
    · exact absurd h (by simp)
    · split at h
      · exact absurd h (by simp)
      · simp only [Except.ok.injEq, Prod.mk.injEq] at h
        rw [← h.1]

/-- The join handler either leaves the join requests unchanged or appends
one fresh pending request. -/
theorem joinGroupPersist_joinRequests (g : Group) (u : User) (now : Nat)
    (a b : Bool) :
    ((joinGroupPersist g u now a b).2.1.joinRequests = g.joinRequests) ∨
    ((joinGroupPersist g u now a b).2.1.joinRequests =
      g.joinRequests ++ [{ rid := g.nextReqId, userId := u.uid,
                           requestedAt := now, status := .pending }]) := by
  unfold joinGroupPersist
  repeat' split
  all_goals simp

/-! ## Claim C4 — join requests are processed exactly once -/

/-- Once a request is processed, no membership operation changes it. -/
theorem processed_request_stable (g : Group) (rid : Nat) (req : JoinRequest)
    (hfind : findRequest? g rid = some req) (hst : req.status ≠ .pending) :
    ∀ op, findRequest? (applyMOp g op) rid = some req := by
  intro op
  cases op with
  | join u now =>
    simp only [applyMOp]
    rcases joinGroupPersist_joinRequests g u now true true with hj | hj
    · unfold findRequest? at hfind ⊢
      rw [hj]
      exact hfind
    · unfold findRequest? at hfind ⊢
      rw [hj]
      exact find?_append_left _ _ _ _ hfind
  | leave u now =>
    simp only [applyMOp]
    cases hl : leaveGroup g u now with
    | error e => exact hfind
    | ok p =>
      unfold findRequest? at hfind ⊢
      rw [leaveGroup_ok_joinRequests g u now p.1 p.2 (by rw [hl])]
      exact hfind
  | transfer a b now =>
    simp only [applyMOp]
    cases ht : transferOwnership g a b now with
    | error e => exact hfind
    | ok g' =>
      unfold findRequest? at hfind ⊢
      rw [transferOwnership_ok_joinRequests g a b now g' ht]
      exact hfind
  | banish a t now =>
    simp only [applyMOp]
    cases hb : banishUser g a t now with
    | error e => exact hfind
    | ok p =>
      unfold findRequest? at hfind ⊢
      rw [banishUser_ok_joinRequests g a t now p.1 p.2 (by rw [hb])]
      exact hfind
  | approve a rid' now =>
    simp only [applyMOp]
    cases ha : approveRequest g a rid' now with
    | error e => exact hfind
    | ok g' =>
      obtain ⟨req', hfind', hpend', _, hg'⟩ := approveRequest_ok_inv g a rid' now g' ha
      have hne : rid' ≠ rid := by
        intro hre
        rw [hre] at hfind'
        rw [hfind'] at hfind
        exact hst (by injection hfind with hh; rw [← hh]; exact hpend')
      unfold findRequest? at hfind ⊢
      rw [hg']
      simpa using (find?_setRequestStatus_ne rid rid' .approved g.joinRequests hne).trans hfind
  | decline a rid' now =>
    simp only [applyMOp]
    cases ha : declineRequest g a rid' now with
    | error e => exact hfind
    | ok g' =>
      obtain ⟨req', hfind', hpend', hg'⟩ := declineRequest_ok_inv g a rid' now g' ha
      have hne : rid' ≠ rid := by
        intro hre
        rw [hre] at hfind'
        rw [hfind'] at hfind
        exact hst (by injection hfind with hh; rw [← hh]; exact hpend')
      unfold findRequest? at hfind ⊢
      rw [hg']
      simpa using (find?_setRequestStatus_ne rid rid' .declined g.joinRequests hne).trans hfind

/-- C4: a join request transitions out of pending at most once.  When the
owner processes a request that is no longer pending, both Approve and
Decline fail with the already-processed error and no membership
operation ever changes the stored request again; while it is pending,
Approve fails group-full when the capacity guard holds at approval time,
and otherwise approves the request and appends the requestor to members;
Decline only sets the status to declined (besides `updatedAt`, which the
save hook refreshes), leaving members and every other request
untouched. -/
theorem join_request_processing_spec (g : Group) (rid : Nat) (now : Nat)
    (req : JoinRequest) (hfind : findRequest? g rid = some req) :
    (req.status ≠ .pending →
       approveRequest g g.owner rid now = .error .requestAlreadyProcessed ∧
       declineRequest g g.owner rid now = .error .requestAlreadyProcessed ∧
       ∀ op, findRequest? (applyMOp g op) rid = some req) ∧
    (req.status = .pending → g.maxReached = true →
       approveRequest g g.owner rid now = .error .groupFull) ∧
    (req.status = .pending → g.maxReached = false →
       approveRequest g g.owner rid now = .ok { g with
         joinRequests := setRequestStatus rid .approved g.joinRequests,
         members := g.members ++ [req.userId], updatedAt := now }) ∧
    (req.status = .pending →
       declineRequest g g.owner rid now = .ok { g with
         joinRequests := setRequestStatus rid .declined g.joinRequests,
         updatedAt := now }) := by
  refine ⟨fun hst => ⟨?_, ?_, processed_request_stable g rid req hfind hst⟩,
          fun hst hmr => ?_, fun hst hmr => ?_, fun hst => ?_⟩
  · simp [approveRequest, hfind, hst]
  · simp [declineRequest, hfind, hst]
  · simp [approveRequest, hfind, hst, hmr]
  · simp [approveRequest, hfind, hst, hmr]
  · simp [declineRequest, hfind, hst]

/-- Concrete instance of `join_request_processing_spec` (claim C4): a
second decline of an already-declined request fails. -/
theorem join_request_processing_spec_witness :
    declineRequest
      { gid := 10, name := "Alpha", gtype := .priv, owner := 1,
        members := [1], maxMembers := some 2,
        joinRequests := [{ rid := 0, userId := 2, requestedAt := 50,
                           status := .declined }],
        bannedUsers := [], createdAt := 0, updatedAt := 0, nextReqId := 1 }
      1 0 200 = .error .requestAlreadyProcessed :=
  ((join_request_processing_spec
    { gid := 10, name := "Alpha", gtype := .priv, owner := 1,
      members := [1], maxMembers := some 2,
      joinRequests := [{ rid := 0, userId := 2, requestedAt := 50,
                         status := .declined }],
      bannedUsers := [], createdAt := 0, updatedAt := 0, nextReqId := 1 }
    0 200
    { rid := 0, userId := 2, requestedAt := 50, status := .declined }
    (by decide)).1 (by decide)).2.1

/-! ## Claim C2 — owner-membership and capacity invariant -/

/-- The inductive invariant: the claim's property plus the auxiliary
fact that a stored `maxMembers` is at least 2. -/
def InvAux (g : Group) : Prop := GroupInv g ∧ MaxValid g

/-- When the capacity guard is off and `maxMembers` is a valid stored
bound, one more member still fits. -/
theorem maxReached_false_room (g : Group) (hmv : MaxValid g)
    (h : g.maxReached = false) :
    ∀ m, g.maxMembers = some m → (g.members.length : Int) + 1 ≤ m := by
  intro m hm
  have h2 := hmv m hm
  simp only [Group.maxReached, hm] at h
  rw [if_neg (by omega)] at h
  have h3 := of_decide_eq_false h
  omega

/-- A valid stored bound is at least 2. -/
theorem storedMax_ge_two (mm? : Option Int)
    (hv : maxMembersInvalid mm? = false) :
    ∀ m, storedMax mm? = some m → 2 ≤ m := by
  intro m hm
  cases mm? with
  | none => simp [storedMax] at hm
  | some mv =>
    simp only [maxMembersInvalid, decide_eq_false_iff_not, not_and_or] at hv
    simp only [storedMax] at hm
    by_cases hz : mv = 0
    · rw [if_pos hz] at hm
      exact absurd hm (by simp)
    · rw [if_neg hz] at hm
      have : mv = m := by simpa using hm
      rcases hv with hc | hc
      · exact absurd (not_not.mp hc) hz
      · omega

/-- Groups returned by CreateGroup satisfy the invariant. -/
theorem createGroup_inv (name gtypeStr : String) (mm? : Option Int)
    (userId gid now : Nat) (g0 : Group)
    (h : createGroup name gtypeStr mm? userId gid now = .ok g0) : InvAux g0 := by
  unfold createGroup at h
  split at h
  · exact absurd h (by simp)
  split at h
  · exact absurd h (by simp)
  split at h
  · exact absurd h (by simp)
  next hval =>
    have hv : maxMembersInvalid mm? = false := by simpa using hval
    simp only [Except.ok.injEq] at h
    rw [← h]
    have hb := storedMax_ge_two mm? hv
    refine ⟨⟨by simp, ?_⟩, ?_⟩ <;>
      · intro m hm
        have := hb m (by simpa using hm)
        simp
        omega

/-- The group document produced by the join handler: unchanged, a public
join (guard off), or a private request append. -/
theorem joinGroupPersist_group_cases (g : Group) (u : User) (now : Nat)
    (a b : Bool) :
    ((joinGroupPersist g u now a b).2.1 = g) ∨
    (g.maxReached = false ∧
     (joinGroupPersist g u now a b).2.1 =
       { g with members := g.members ++ [u.uid], updatedAt := now }) ∨
    ((joinGroupPersist g u now a b).2.1 =
       { g with
         joinRequests := g.joinRequests ++
           [{ rid := g.nextReqId, userId := u.uid, requestedAt := now,
              status := .pending }],
         nextReqId := g.nextReqId + 1, updatedAt := now }) := by
  unfold joinGroupPersist
  repeat' split
  all_goals simp_all

/-- Inversion of a successful leave (group side). -/
theorem leaveGroup_ok_inv (g : Group) (u : User) (now : Nat)
    (g' : Group) (u' : User) (h : leaveGroup g u now = .ok (g', u')) :
    g.isMember u.uid = true ∧ g.owner ≠ u.uid ∧
    g' = { g with
           members := g.members.filter (fun m => m != u.uid),
           updatedAt := now } := by
  unfold leaveGroup at h
  split at h
  · exact absurd h (by simp)
  next hmem =>
    split at h
    · exact absurd h (by simp)
    next hown =>
      refine ⟨by simpa using hmem, by simpa using hown, ?_⟩
      simp only [Except.ok.injEq, Prod.mk.injEq] at h
      exact h.1.symm

/-- Inversion of a successful ownership transfer. -/
theorem transferOwnership_ok_inv (g : Group) (actorId newOwnerId now : Nat)
    (g' : Group) (h : transferOwnership g actorId newOwnerId now = .ok g') :
    g.isMember newOwnerId = true ∧
    g' = { g with owner := newOwnerId, updatedAt := now } := by
  unfold transferOwnership at h
  split at h
  · exact absurd h (by simp)
  split at h
  · exact absurd h (by simp)
  next hmem =>
    refine ⟨by simpa using hmem, ?_⟩
    simp only [Except.ok.injEq] at h
    exact h.symm

/-- Inversion of a successful banishment (group side). -/
theorem banishUser_ok_inv (g : Group) (actorId : Nat) (target : User)
    (now : Nat) (g' : Group) (u' : User)
    (h : banishUser g actorId target now = .ok (g', u')) :
    g.owner = actorId ∧ target.uid ≠ actorId ∧
    g' = { g with
      members := g.members.filter (fun m => m != target.uid),
      bannedUsers := g.bannedUsers ++
        [{ userId := target.uid, bannedAt := now, bannedBy := actorId }],
      updatedAt := now } := by
  unfold banishUser at h
  split at h
  · exact absurd h (by simp)
  next hown =>
    split at h
    · exact absurd h (by simp)
    next hself =>
      split at h
      · exact absurd h (by simp)
      · simp only [Except.ok.injEq, Prod.mk.injEq] at h
        refine ⟨by simpa using hown, by simpa using hself, h.1.symm⟩

/-- Every membership operation preserves the invariant. -/
theorem InvAux_applyMOp (g : Group) (op : MOp) (h : InvAux g) :
    InvAux (applyMOp g op) := by
  obtain ⟨⟨hmem, hcap⟩, hmv⟩ := h
  cases op with
  | join u now =>
    simp only [applyMOp]
    rcases joinGroupPersist_group_cases g u now true true with hc | ⟨hng, hc⟩ | hc
    · rw [hc]; exact ⟨⟨hmem, hcap⟩, hmv⟩
    · rw [hc]
      refine ⟨⟨by simp [hmem], ?_⟩, fun m hm => hmv m hm⟩
      intro m hm
      have := maxReached_false_room g hmv hng m hm
      simp only [List.length_append, List.length_cons, List.length_nil]
      push_cast
      omega
    · rw [hc]; exact ⟨⟨hmem, hcap⟩, fun m hm => hmv m hm⟩
  | leave u now =>
    simp only [applyMOp]
    cases hl : leaveGroup g u now with
    | error e => exact ⟨⟨hmem, hcap⟩, hmv⟩
    | ok p =>
      obtain ⟨g', u'⟩ := p
      show InvAux g'
      obtain ⟨_, hown, hg'⟩ := leaveGroup_ok_inv g u now g' u' hl
      rw [hg']
      refine ⟨⟨?_, ?_⟩, fun m hm => hmv m hm⟩
      · rw [List.mem_filter]
        exact ⟨hmem, by simpa using hown⟩
      · intro m hm
        have h1 := hcap m hm
        have h2 := List.length_filter_le (fun m => m != u.uid) g.members
        simp only []
        omega
  | transfer actorId newOwnerId now =>
    simp only [applyMOp]
    cases ht : transferOwnership g actorId newOwnerId now with
    | error e => exact ⟨⟨hmem, hcap⟩, hmv⟩
    | ok g' =>
      show InvAux g'
      obtain ⟨hm2, hg'⟩ := transferOwnership_ok_inv g actorId newOwnerId now g' ht
      rw [hg']
      exact ⟨⟨(isMember_iff g newOwnerId).mp hm2, fun m hm => hcap m hm⟩,
             fun m hm => hmv m hm⟩
  | banish actorId target now =>
    simp only [applyMOp]
    cases hb : banishUser g actorId target now with
    | error e => exact ⟨⟨hmem, hcap⟩, hmv⟩
    | ok p =>
      obtain ⟨g', u'⟩ := p
      show InvAux g'
      obtain ⟨hown, hself, hg'⟩ := banishUser_ok_inv g actorId target now g' u' hb
      rw [hg']
      refine ⟨⟨?_, ?_⟩, fun m hm => hmv m hm⟩
      · rw [List.mem_filter]
        refine ⟨hmem, ?_⟩
        simp only [bne_iff_ne, ne_eq]
        intro he
        exact hself (by rw [← he, hown])
      · intro m hm
        have h1 := hcap m hm
        have h2 := List.length_filter_le (fun m => m != target.uid) g.members
        simp only []
        omega
  | approve actorId rid now =>
    simp only [applyMOp]
    cases ha : approveRequest g actorId rid now with
    | error e => exact ⟨⟨hmem, hcap⟩, hmv⟩
    | ok g' =>
      show InvAux g'
      obtain ⟨req, _, _, hng, hg'⟩ := approveRequest_ok_inv g actorId rid now g' ha
      rw [hg']
      refine ⟨⟨by simp [hmem], ?_⟩, fun m hm => hmv m hm⟩
      intro m hm
      have := maxReached_false_room g hmv hng m hm
      simp only [List.length_append, List.length_cons, List.length_nil]
      push_cast
      omega
  | decline actorId rid now =>
    simp only [applyMOp]
    cases hd : declineRequest g actorId rid now with
    | error e => exact ⟨⟨hmem, hcap⟩, hmv⟩
    | ok g' =>
      show InvAux g'
      obtain ⟨req, _, _, hg'⟩ := declineRequest_ok_inv g actorId rid now g' hd
      rw [hg']
      exact ⟨⟨hmem, fun m hm => hcap m hm⟩, fun m hm => hmv m hm⟩

theorem InvAux_runMOps (g : Group) (ops : List MOp) (h : InvAux g) :
    InvAux (runMOps g ops) := by
  induction ops generalizing g with
  | nil => exact h
  | cons op rest ih => exact ih (applyMOp g op) (InvAux_applyMOp g op h)

/-- C2: starting from any group returned by CreateGroup, any sequence of
Join, Leave, TransferOwnership, Banish, Approve and Decline operations
keeps the owner in the members list and the member count within
`maxMembers` whenever that bound is set. -/
theorem owner_membership_capacity_invariant (name gtypeStr : String)
    (mm? : Option Int) (userId gid now : Nat) (g0 : Group)
    (h : createGroup name gtypeStr mm? userId gid now = .ok g0)
    (ops : List MOp) : GroupInv (runMOps g0 ops) :=
  (InvAux_runMOps g0 ops (createGroup_inv name gtypeStr mm? userId gid now g0 h)).1

/-- Concrete instance of `owner_membership_capacity_invariant` (claim
C2): a private capacity-2 group goes through a request, an approval (the
group fills), a failing join, a leave and an ownership transfer. -/
theorem owner_membership_capacity_invariant_witness :
    GroupInv (runMOps
      { gid := 10, name := "Alpha", gtype := .priv, owner := 1,
        members := [1], maxMembers := some 2, joinRequests := [],
        bannedUsers := [], createdAt := 0, updatedAt := 0, nextReqId := 0 }
      [.join { uid := 2, groups := [], bannedGroups := [], leftGroups := [] } 100,
       .approve 1 0 200,
       .join { uid := 4, groups := [], bannedGroups := [], leftGroups := [] } 250,
       .leave { uid := 2, groups := [10], bannedGroups := [], leftGroups := [] } 300,
       .transfer 1 1 400]) :=
  owner_membership_capacity_invariant "Alpha" "private" (some 2) 1 10 0 _
    rfl _

/-! ## Claim C6 — the cooldown ledger -/

/-- The 48-hour comparison of `canRejoinPrivateGroup`, reduced to
milliseconds. -/
theorem canRejoin_ge_iff (now leftAt : Nat) :
    (decide ((48 : ℚ) ≤ ((now : ℚ) - (leftAt : ℚ)) / (1000 * 60 * 60)) = true) ↔
      172800000 ≤ now - leftAt := by
  rw [decide_eq_true_iff, le_div_iff₀ (by norm_num : (0 : ℚ) < 1000 * 60 * 60)]
  have he : (48 : ℚ) * (1000 * 60 * 60) = 172800000 := by norm_num
  rw [he]
  constructor
  · intro h
    have h'' : (172800000 + leftAt : ℕ) ≤ now := by
      have hq := le_sub_iff_add_le.mp h
      exact_mod_cast hq
    omega
  · intro h
    have h'' : (172800000 + leftAt : ℕ) ≤ now := by omega
    have h' : ((172800000 : ℚ) + (leftAt : ℚ)) ≤ (now : ℚ) := by exact_mod_cast h''
    linarith

/-- Predicate `CanRejoin`: true when no record exists; with a record, true exactly
when at least 48 hours (172800000 ms) have passed. -/
theorem canRejoin_iff_spec (u : User) (gid now : Nat) :
    (u.leftGroups.find? (·.groupId == gid) = none →
       u.canRejoinPrivateGroup gid now = true) ∧
    (∀ r, u.leftGroups.find? (·.groupId == gid) = some r →
       (u.canRejoinPrivateGroup gid now = true ↔ 172800000 ≤ now - r.leftAt)) := by
  constructor
  · intro hf
    simp [User.canRejoinPrivateGroup, hf]
  · intro r hf
    simp only [User.canRejoinPrivateGroup, hf]
    exact canRejoin_ge_iff now r.leftAt

/-- After an upsert the ledger resolves the pair to the new `leftAt`. -/
theorem upsertLeft_find (gid now : Nat) (l : List LeftRecord) :
    (upsertLeft gid now l).find? (·.groupId == gid) =
      some { groupId := gid, leftAt := now } := by
  induction l with
  | nil => simp [upsertLeft, List.find?]
  | cons r rs ih =>
    by_cases h : (r.groupId == gid) = true
    · have hr : r.groupId = gid := by simpa using h
      simp only [upsertLeft, if_pos h]
      simp [List.find?, hr]
    · have hb : (r.groupId == gid) = false := by simpa using h
      simp only [upsertLeft, if_neg h]
      simp only [List.find?, hb]
      exact ih

/-- An upsert into a ledger holding at most one record for the pair
leaves exactly one record for the pair. -/
theorem upsertLeft_count_self (gid now : Nat) (l : List LeftRecord)
    (h : (l.filter (·.groupId == gid)).length ≤ 1) :
    ((upsertLeft gid now l).filter (·.groupId == gid)).length = 1 := by
  induction l with
  | nil => simp [upsertLeft]
  | cons r rs ih =>
    by_cases hb : (r.groupId == gid) = true
    · simp only [upsertLeft, if_pos hb]
      simp [List.filter_cons, hb] at h
      simpa [List.filter_cons, hb] using h
    · simp only [upsertLeft, if_neg hb]
      simp only [List.filter_cons, hb] at h
      simp only [List.filter_cons, hb]
      simp only [Bool.false_eq_true, if_false] at h ⊢
      exact ih h

/-- An upsert for one group does not change the records of another. -/
theorem upsertLeft_count_other (gid gid' now : Nat) (l : List LeftRecord)
    (hne : gid' ≠ gid) :
    ((upsertLeft gid now l).filter (·.groupId == gid')).length =
      (l.filter (·.groupId == gid')).length := by
  have hb0 : (gid == gid') = false := by
    simp only [beq_eq_false_iff_ne, ne_eq]
    exact fun he => hne he.symm
  induction l with
  | nil => simp [upsertLeft, List.filter_cons, hb0]
  | cons r rs ih =>
    by_cases hb : (r.groupId == gid) = true
    · have hr : r.groupId = gid := by simpa using hb
      have hb' : (r.groupId == gid') = false := by rw [hr]; exact hb0
      simp only [upsertLeft, if_pos hb]
      simp only [List.filter_cons, hb', Bool.false_eq_true, if_false]
    · simp only [upsertLeft, if_neg hb]
      by_cases hb2 : (r.groupId == gid') = true
      · simp only [List.filter_cons, hb2, if_pos]
        simp only [List.length_cons]
        omega
      · have hb2' : (r.groupId == gid') = false := by simpa using hb2
        simp only [List.filter_cons, hb2', Bool.false_eq_true, if_false]
        exact ih

/-- Inversion of a successful leave (user ledger side). -/
theorem leaveGroup_ok_leftGroups (g : Group) (u : User) (now : Nat)
    (g' : Group) (u' : User) (h : leaveGroup g u now = .ok (g', u')) :
    (g.gtype = .priv ∧ u'.leftGroups = upsertLeft g.gid now u.leftGroups) ∨
    (g.gtype = .pub ∧ u'.leftGroups = u.leftGroups) := by
  unfold leaveGroup at h
  split at h
  · exact absurd h (by simp)
  split at h
  · exact absurd h (by simp)
  simp only [Except.ok.injEq, Prod.mk.injEq] at h
  by_cases hp : g.gtype = .priv
  · left
    refine ⟨hp, ?_⟩
    rw [← h.2]
    simp [hp]
  · right
    have hpub : g.gtype = .pub := by
      cases hgt : g.gtype
      · rfl
      · exact absurd hgt hp
    refine ⟨hpub, ?_⟩
    rw [← h.2]
    simp [hpub]

/-- One LeaveGroup call keeps the at-most-one-record property. -/
theorem applyLeave_countLeft (u : User) (p : Group × Nat) (gid : Nat)
    (h : countLeft u gid ≤ 1) : countLeft (applyLeave u p) gid ≤ 1 := by
  unfold applyLeave
  cases hl : leaveGroup p.1 u p.2 with
  | error e => exact h
  | ok q =>
    obtain ⟨g', u'⟩ := q
    show countLeft u' gid ≤ 1
    rcases leaveGroup_ok_leftGroups p.1 u p.2 g' u' hl with ⟨_, hlg⟩ | ⟨_, hlg⟩
    · unfold countLeft at h ⊢
      rw [hlg]
      by_cases hg : p.1.gid = gid
      · rw [hg] at hlg ⊢
        rw [upsertLeft_count_self gid p.2 u.leftGroups h]
      · rw [upsertLeft_count_other p.1.gid gid p.2 u.leftGroups
          (fun he => hg he.symm)]
        exact h
    · unfold countLeft at h ⊢
      rw [hlg]
      exact h

theorem runLeaves_countLeft (u : User) (l : List (Group × Nat)) (gid : Nat)
    (h : countLeft u gid ≤ 1) : countLeft (runLeaves u l) gid ≤ 1 := by
  induction l generalizing u with
  | nil => exact h
  | cons p rest ih => exact ih (applyLeave u p) (applyLeave_countLeft u p gid h)

/-- A private JoinGroup that passes the membership, ban and capacity
guards fails with the cooldown error exactly when `CanRejoin` is
false. -/
theorem private_join_cooldown_iff (g : Group) (u : User) (now : Nat)
    (hp : g.gtype = .priv) (hnm : g.isMember u.uid = false)
    (hnb : g.isBanned u.uid = false) (hfull : g.maxReached = false) :
    (joinGroup g u now = .error .cooldown ↔
      u.canRejoinPrivateGroup g.gid now = false) := by
  unfold joinGroup joinGroupPersist
  by_cases hc : u.canRejoinPrivateGroup g.gid now
  · by_cases hpend : g.hasPendingRequest u.uid = true
    · simp [hnm, hnb, hfull, hp, hc, hpend]
    · simp [hnm, hnb, hfull, hp, hc, hpend]
  · simp [hnm, hnb, hfull, hp, hc]

/-- C6: after any sequence of LeaveGroup calls a user holds at most one
cooldown record per group (re-leaving overwrites, not appends — a
successful private leave resolves the pair to `leftAt = now` and keeps
exactly one record); `CanRejoin` is true iff no record exists or at
least 48 hours (172800000 ms) have elapsed since its `leftAt`; and a
private JoinGroup that passes the earlier guards fails with the cooldown
error exactly when `CanRejoin` is false. -/
theorem cooldown_ledger_spec (u : User) (g : Group) (now : Nat)
    (l : List (Group × Nat)) :
    ((∀ gid, countLeft u gid ≤ 1) → ∀ gid, countLeft (runLeaves u l) gid ≤ 1) ∧
    (∀ g' u', leaveGroup g u now = .ok (g', u') → g.gtype = .priv →
       u'.leftGroups.find? (·.groupId == g.gid) =
         some { groupId := g.gid, leftAt := now } ∧
       (countLeft u g.gid ≤ 1 → countLeft u' g.gid = 1)) ∧
    (u.leftGroups.find? (·.groupId == g.gid) = none →
       u.canRejoinPrivateGroup g.gid now = true) ∧
    (∀ r, u.leftGroups.find? (·.groupId == g.gid) = some r →
       (u.canRejoinPrivateGroup g.gid now = true ↔ 172800000 ≤ now - r.leftAt)) ∧
    (g.gtype = .priv → g.isMember u.uid = false → g.isBanned u.uid = false →
       g.maxReached = false →
       (joinGroup g u now = .error .cooldown ↔
         u.canRejoinPrivateGroup g.gid now = false)) := by
  refine ⟨fun hall gid => runLeaves_countLeft u l gid (hall gid),
          ?_, (canRejoin_iff_spec u g.gid now).1, (canRejoin_iff_spec u g.gid now).2,
          fun hp hnm hnb hfull => private_join_cooldown_iff g u now hp hnm hnb hfull⟩
  intro g' u' hl hp
  rcases leaveGroup_ok_leftGroups g u now g' u' hl with ⟨_, hlg⟩ | ⟨hpub, _⟩
  · constructor
    · rw [hlg]
      exact upsertLeft_find g.gid now u.leftGroups
    · intro hcount
      unfold countLeft at hcount ⊢
      rw [hlg]
      exact upsertLeft_count_self g.gid now u.leftGroups hcount
  · rw [hp] at hpub
    exact absurd hpub (by simp)

/-- A private group 11 owned by user 1, unlimited capacity. -/
def samplePrivGroup : Group :=
  { gid := 10, name := "Gamma", gtype := .priv, owner := 1,
    members := [1], maxMembers := none, joinRequests := [],
    bannedUsers := [], createdAt := 0, updatedAt := 0, nextReqId := 0 }

/-- Concrete instance of `cooldown_ledger_spec` (claim C6): user 2 left
group 10 at time 90, so shortly after, a private rejoin attempt fails
with the cooldown error iff `CanRejoin` is false. -/
theorem cooldown_ledger_spec_witness :
    joinGroup samplePrivGroup sampleCdUser 1000 = .error .cooldown ↔
      sampleCdUser.canRejoinPrivateGroup samplePrivGroup.gid 1000 = false :=
  (cooldown_ledger_spec sampleCdUser samplePrivGroup 1000 []).2.2.2.2
    rfl (by decide) (by decide) (by decide)

/-! ## Lemmas about the newest-first sort -/

theorem mem_insertDesc (m a : Message) (l : List Message) :
    a ∈ insertDesc m l ↔ a = m ∨ a ∈ l := by
  induction l with
  | nil => simp [insertDesc]
  | cons x xs ih =>
    unfold insertDesc
    by_cases hx : x.timestamp ≤ m.timestamp
    · simp [hx]
    · rw [if_neg hx]
      simp only [List.mem_cons, ih]
      tauto

theorem mem_sortByTimestampDesc (a : Message) (l : List Message) :
    a ∈ sortByTimestampDesc l ↔ a ∈ l := by
  induction l with
  | nil => simp [sortByTimestampDesc]
  | cons x xs ih =>
    show a ∈ insertDesc x (sortByTimestampDesc xs) ↔ _
    rw [mem_insertDesc]
    simp only [List.mem_cons, ih]

theorem pairwise_insertDesc (m : Message) (l : List Message)
    (h : l.Pairwise (fun a b => b.timestamp ≤ a.timestamp)) :
    (insertDesc m l).Pairwise (fun a b => b.timestamp ≤ a.timestamp) := by
  induction l with
  | nil => simp [insertDesc]
  | cons x xs ih =>
    rw [List.pairwise_cons] at h
    unfold insertDesc
    by_cases hx : x.timestamp ≤ m.timestamp
    · rw [if_pos hx, List.pairwise_cons]
      constructor
      · intro b hb
        rcases List.mem_cons.mp hb with rfl | hb'
        · exact hx
        · exact le_trans (h.1 b hb') hx
      · exact List.pairwise_cons.mpr h
    · rw [if_neg hx, List.pairwise_cons]
      constructor
      · intro b hb
        rcases (mem_insertDesc m b xs).mp hb with rfl | hb'
        · omega
        · exact h.1 b hb'
      · exact ih h.2

theorem pairwise_sortByTimestampDesc (l : List Message) :
    (sortByTimestampDesc l).Pairwise (fun a b => b.timestamp ≤ a.timestamp) := by
  induction l with
  | nil => simp [sortByTimestampDesc]
  | cons x xs ih => exact pairwise_insertDesc x _ ih

/-! ## Claim C7 — ListMessages -/

/-- Unfolding of the Mongo query predicate built by the list handler. -/
theorem matchesListQuery_decomp (gid : Nat) (b? a? : Option Nat) (m : Message)
    (h : matchesListQuery gid b? a? m = true) :
    m.groupId = gid ∧ m.deleted = false ∧
    (∀ b, b? = some b → m.timestamp < b) ∧
    (b? = none → ∀ a, a? = some a → a < m.timestamp) := by
  unfold matchesListQuery at h
  simp only [Bool.and_eq_true, beq_iff_eq] at h
  obtain ⟨⟨h1, h2⟩, h3⟩ := h
  refine ⟨h1, by simpa using h2, ?_, ?_⟩
  · intro b hb
    rw [hb] at h3
    simpa using h3
  · intro hb a ha
    rw [hb, ha] at h3
    simpa using h3

/-- C7: a successful ListMessages returns exactly the newest `limit`
messages of the group with `deleted = false` that satisfy the
`before`/`after` restriction (`before` taking precedence and `after`
then ignored), decrypted and reversed into ascending chronological
order, with `hasMore` computed as the returned-count-equals-`limit`
test — the first two conjuncts characterize the output completely —
and consequently: every returned entry comes from a matching
message, the list is ascending, holds at most `limit` entries,
`hasMore` is true exactly when the returned count equals `limit`, and
every matching message left out is no newer than any returned one. -/
theorem list_messages_spec (g : Group) (userId : Nat) (msgs : List Message)
    (limit : Nat) (before? after? : Option Nat) (out : List ListedMessage)
    (hasMore : Bool)
    (hmem : g.isMember userId = true)
    (hrun : listMessages (some g) userId msgs limit before? after? =
      .ok (out, hasMore)) :
    out = (((sortByTimestampDesc
      (msgs.filter (matchesListQuery g.gid before? after?))).take limit).map
        listedOf).reverse ∧
    hasMore = (((sortByTimestampDesc
      (msgs.filter (matchesListQuery g.gid before? after?))).take limit).length
        == limit) ∧
    (∀ x ∈ out, ∃ m, m ∈ msgs ∧ m.groupId = g.gid ∧ m.deleted = false ∧
       (∀ b, before? = some b → m.timestamp < b) ∧
       (before? = none → ∀ a, after? = some a → a < m.timestamp) ∧
       x = listedOf m) ∧
    out.Pairwise (fun x y => x.timestamp ≤ y.timestamp) ∧
    out.length ≤ limit ∧
    (hasMore = true ↔ out.length = limit) ∧
    (∀ m ∈ msgs, matchesListQuery g.gid before? after? m = true →
       listedOf m ∉ out → ∀ x ∈ out, m.timestamp ≤ x.timestamp) := by
  simp only [listMessages, hmem, Bool.not_true, Bool.false_eq_true, if_false,
    Except.ok.injEq, Prod.mk.injEq] at hrun
  obtain ⟨hout, hhm⟩ := hrun
  have hsorted := pairwise_sortByTimestampDesc
    (msgs.filter (matchesListQuery g.gid before? after?))
  have hfsort : ((sortByTimestampDesc
      (msgs.filter (matchesListQuery g.gid before? after?))).take limit).Pairwise
      (fun a b => b.timestamp ≤ a.timestamp) :=
    hsorted.sublist (List.take_sublist _ _)
  have hlen : out.length =
      ((sortByTimestampDesc
        (msgs.filter (matchesListQuery g.gid before? after?))).take limit).length := by
    rw [← hout, List.length_reverse, List.length_map]
  refine ⟨hout.symm, hhm.symm, ?_, ?_, ?_, ?_, ?_⟩
  · intro x hx
    rw [← hout, List.mem_reverse, List.mem_map] at hx
    obtain ⟨m, hm, hxm⟩ := hx
    have hm2 : m ∈ msgs.filter (matchesListQuery g.gid before? after?) := by
      rw [← mem_sortByTimestampDesc]
      exact List.take_subset _ _ hm
    rw [List.mem_filter] at hm2
    obtain ⟨hmm, hq⟩ := hm2
    obtain ⟨h1, h2, h3, h4⟩ := matchesListQuery_decomp _ _ _ _ hq
    exact ⟨m, hmm, h1, h2, h3, h4, hxm.symm⟩
  · rw [← hout, List.pairwise_reverse, List.pairwise_map]
    exact hfsort.imp (fun hab => hab)
  · rw [hlen]
    exact List.length_take_le _ _
  · rw [← hhm, hlen]
    exact beq_iff_eq
  · intro m hm hq hnot x hx
    have hms : m ∈ sortByTimestampDesc
        (msgs.filter (matchesListQuery g.gid before? after?)) := by
      rw [mem_sortByTimestampDesc, List.mem_filter]
      exact ⟨hm, hq⟩
    rw [← List.take_append_drop limit (sortByTimestampDesc
      (msgs.filter (matchesListQuery g.gid before? after?)))] at hms
    rcases List.mem_append.mp hms with htake | hdrop
    · exact absurd (by
        rw [← hout, List.mem_reverse, List.mem_map]
        exact ⟨m, htake, rfl⟩) hnot
    · rw [← hout, List.mem_reverse, List.mem_map] at hx
      obtain ⟨a, ha, hxa⟩ := hx
      have hsplit : List.Pairwise (fun a b => b.timestamp ≤ a.timestamp)
          ((sortByTimestampDesc
            (msgs.filter (matchesListQuery g.gid before? after?))).take limit ++
           (sortByTimestampDesc
            (msgs.filter (matchesListQuery g.gid before? after?))).drop limit) := by
        rw [List.take_append_drop]
        exact hsorted
      have hcross := (List.pairwise_append.mp hsplit).2.2
      have := hcross a ha m hdrop
      rw [← hxa]
      simpa [listedOf] using this

/-- Messages of group 10: two live ones and a deleted one in between
(stored unencrypted so that the decrypted view is the content itself). -/
def sampleListMsgs : List Message :=
  [{ mid := 1, groupId := 10, senderId := 2, content := "aa",
     encrypted := false, iv := none, timestamp := 100, edited := false,
     editedAt := none, deleted := false, deletedAt := none },
   { mid := 2, groupId := 10, senderId := 2, content := "bb",
     encrypted := false, iv := none, timestamp := 200, edited := false,
     editedAt := none, deleted := true, deletedAt := some 300 },
   { mid := 3, groupId := 10, senderId := 3, content := "cc",
     encrypted := false, iv := none, timestamp := 400, edited := false,
     editedAt := none, deleted := false, deletedAt := none }]

/-- Concrete instance of `list_messages_spec` (claim C7): listing the
group with limit 2 skips the deleted message and answers exactly the
two live ones in ascending order with `hasMore = true`. -/
theorem list_messages_spec_witness :
    ([{ mid := 1, groupId := 10, senderId := 2, content := "aa",
        timestamp := 100, edited := false, editedAt := none },
      { mid := 3, groupId := 10, senderId := 3, content := "cc",
        timestamp := 400, edited := false, editedAt := none }] :
      List ListedMessage) =
      (((sortByTimestampDesc
        (sampleListMsgs.filter
          (matchesListQuery sampleOwnerGroup.gid none none))).take 2).map
            listedOf).reverse ∧
    ([{ mid := 1, groupId := 10, senderId := 2, content := "aa",
        timestamp := 100, edited := false, editedAt := none },
      { mid := 3, groupId := 10, senderId := 3, content := "cc",
        timestamp := 400, edited := false, editedAt := none }] :
      List ListedMessage).Pairwise (fun x y => x.timestamp ≤ y.timestamp) ∧
    ([{ mid := 1, groupId := 10, senderId := 2, content := "aa",
        timestamp := 100, edited := false, editedAt := none },
      { mid := 3, groupId := 10, senderId := 3, content := "cc",
        timestamp := 400, edited := false, editedAt := none }] :
      List ListedMessage).length ≤ 2 := by
  have h := list_messages_spec sampleOwnerGroup 2 sampleListMsgs 2 none none
    [{ mid := 1, groupId := 10, senderId := 2, content := "aa",
       timestamp := 100, edited := false, editedAt := none },
     { mid := 3, groupId := 10, senderId := 3, content := "cc",
       timestamp := 400, edited := false, editedAt := none }] true
    (by decide) rfl
  exact ⟨h.1, h.2.2.2.1, h.2.2.2.2.1⟩

/-! ## Claim C8 — SearchMessages -/

/-- The scan loop, for a positive limit and an accumulator still below
it: it returns the matches in scan order, truncated to `limit`. -/
theorem searchLoop_characterization (term : String) (limit : Nat)
    (ms : List Message) : ∀ acc, acc.length < limit →
    searchLoop term limit ms acc =
      (acc ++ (ms.filter
        (fun m => includesStr (jsToLower m.getDecryptedContent) term)).map
          resultOf).take limit := by
  induction ms with
  | nil =>
    intro acc h
    simp only [searchLoop, List.filter_nil, List.map_nil, List.append_nil]
    rw [List.take_of_length_le (le_of_lt h)]
  | cons m rest ih =>
    intro acc h
    by_cases hm : includesStr (jsToLower m.getDecryptedContent) term = true
    · simp only [searchLoop, hm, if_true, List.filter_cons, List.map_cons]
      have hjoin : acc ++ resultOf m ::
          (rest.filter (fun mm =>
            includesStr (jsToLower mm.getDecryptedContent) term)).map resultOf =
          (acc ++ [resultOf m]) ++
          (rest.filter (fun mm =>
            includesStr (jsToLower mm.getDecryptedContent) term)).map resultOf := by
        simp
      by_cases hl : limit ≤ (acc ++ [resultOf m]).length
      · rw [if_pos hl]
        have hlen : (acc ++ [resultOf m]).length = limit := by
          simp only [List.length_append, List.length_cons, List.length_nil] at hl ⊢
          omega
        rw [hjoin, ← hlen, List.take_left]
      · rw [if_neg hl]
        have h' : (acc ++ [resultOf m]).length < limit := Nat.lt_of_not_le hl
        rw [hjoin, ih (acc ++ [resultOf m]) h']
    · have hm' : includesStr (jsToLower m.getDecryptedContent) term = false := by
        simpa using hm
      simp only [searchLoop, hm', Bool.false_eq_true, if_false, List.filter_cons]
      rw [if_neg (by omega : ¬ limit ≤ acc.length)]
      exact ih acc h

set_option maxRecDepth 8000 in
/-- C8 counterexample: the handler breaks out of the scan loop only
after pushing the current match, so with `limit = 0` a member searching
a group holding one matching message still gets one result back —
violating "returns at most `limit` results" at `limit = 0`. -/
theorem search_limit_zero_counterexample :
    searchMessages (some sampleOwnerGroup) 2 [sampleSent] "hello" 0 =
      .ok [resultOf sampleSent] ∧
    ¬ (([resultOf sampleSent] : List SearchResult).length ≤ 0) := by
  refine ⟨rfl, by decide⟩

/-- C8 amended: for every positive `limit`, a successful SearchMessages
by a member with a non-blank query returns exactly the case-insensitive
matches among the 500 most recent non-deleted messages of the group,
scanned newest-first and truncated to the first `limit` of them; hence
at most `limit` results, each drawn from a non-deleted message of the
group inside the 500-message window whose decrypted content contains the
query case-insensitively.  (For `limit = 0` the stop check runs only
after a match is appended, so the first match is still returned.) -/
theorem search_messages_spec (g : Group) (userId : Nat) (msgs : List Message)
    (q : String) (limit : Nat) (out : List SearchResult)
    (hmem : g.isMember userId = true) (hq : (jsTrim q).length ≠ 0)
    (hlim : 1 ≤ limit)
    (hrun : searchMessages (some g) userId msgs q limit = .ok out) :
    out = (((searchWindow g.gid msgs).filter
      (fun m => includesStr (jsToLower m.getDecryptedContent)
        (jsToLower q))).map resultOf).take limit ∧
    out.length ≤ limit ∧
    (∀ r ∈ out, ∃ m, m ∈ msgs ∧ m.groupId = g.gid ∧ m.deleted = false ∧
       m ∈ searchWindow g.gid msgs ∧
       includesStr (jsToLower m.getDecryptedContent) (jsToLower q) = true ∧
       r = resultOf m) := by
  simp only [searchMessages, hq, hmem, Bool.not_true, Bool.false_eq_true,
    if_false, Except.ok.injEq] at hrun
  rw [searchLoop_characterization (jsToLower q) limit (searchWindow g.gid msgs)
    [] (by simp only [List.length_nil]; omega)] at hrun
  simp only [List.nil_append] at hrun
  refine ⟨hrun.symm, ?_, ?_⟩
  · rw [← hrun]
    exact List.length_take_le _ _
  · intro r hr
    rw [← hrun] at hr
    have hr2 := List.take_subset _ _ hr
    rw [List.mem_map] at hr2
    obtain ⟨m, hmf, hrm⟩ := hr2
    rw [List.mem_filter] at hmf
    obtain ⟨hmw, hminc⟩ := hmf
    have hmw2 : m ∈ (msgs.filter
        (fun mm => mm.groupId == g.gid && mm.deleted == false)) := by
      have := List.take_subset 500 _ hmw
      rw [mem_sortByTimestampDesc] at this
      exact this
    rw [List.mem_filter, Bool.and_eq_true] at hmw2
    refine ⟨m, hmw2.1, by simpa using hmw2.2.1, by simpa using hmw2.2.2,
      hmw, hminc, hrm.symm⟩

set_option maxRecDepth 8000 in
/-- Concrete instance of `search_messages_spec` (claim C8): searching
"hello" with limit 20 over one stored encrypted "hello" message. -/
theorem search_messages_spec_witness :
    ([resultOf sampleSent] : List SearchResult).length ≤ 20 :=
  (search_messages_spec sampleOwnerGroup 2 [sampleSent] "hello" 20
    [resultOf sampleSent] (by decide) (by decide) (by omega) rfl).2.1

end NodeAssignment
